import Mathlib

/-!
Shallow embedding of the job-orchestration core of komoot-takeout
(src/app.py, src/tours.py, src/collections.py, src/komoot_adapter.py),
together with theorems settling the claims about it.

Network traffic, HTML parsing and the file system are external
collaborators; they enter the embedding as oracle parameters
(for example `net : Nat → FetchOutcome` gives the outcome of the k-th
HTTP attempt, and `dl : Nat → Bool` tells whether the download of a
given tour unit succeeds).  Thread pools with `as_completed` are
modelled by folding the per-unit bookkeeping over an arbitrary
completion order, passed as an explicit list.
-/

namespace Komoot

/-! ## RetryingFetcher: `make_request_with_retry` (src/app.py lines 268-279) -/

/-- Outcome of one HTTP GET attempt: a response carrying a status code
(any code, including 4xx/5xx), or a connection/timeout failure
(`requests.ConnectionError` / `requests.Timeout`). -/
inductive FetchOutcome where
  | resp (statusCode : Nat)
  | netErr
deriving DecidableEq, Repr

/-- How one call of `make_request_with_retry` ends:
`returned s` models `return response` (a response with status code `s`),
`raised` models `raise e` of the final network error. -/
inductive RetryOutcome where
  | returned (statusCode : Nat)
  | raised
deriving DecidableEq, Repr

/-- Result of `make_request_with_retry`.
`outcome = none` models the Python function falling off the end of its
`for` loop and implicitly returning `None`.
`sleeps` is the list of back-off sleeps performed, in seconds, in order.
`calls` counts how many HTTP requests were issued. -/
structure RetryResult where
  outcome : Option RetryOutcome
  sleeps : List Nat
  calls : Nat
deriving DecidableEq, Repr

/-- The body of the `for attempt in range(max_retries)` loop of
`make_request_with_retry`, by recursion on the number of remaining
loop iterations (`fuel = max_retries - attempt`).  Mirrors:
```
for attempt in range(max_retries):
    try:
        response = requests.get(url, headers=headers, timeout=timeout)
        return response
    except (requests.ConnectionError, requests.Timeout) as e:
        if attempt < max_retries - 1:
            sleep_time = 2 ** attempt  # Exponential backoff
            time.sleep(sleep_time)
        else:
            raise e
``` -/
def retryAux (net : Nat → FetchOutcome) (max_retries : Nat) : Nat → Nat → RetryResult
  | _attempt, 0 => ⟨none, [], 0⟩
  | attempt, fuel + 1 =>
    match net attempt with
    | .resp s => ⟨some (.returned s), [], 1⟩
    | .netErr =>
      if attempt < max_retries - 1 then
        let r := retryAux net max_retries (attempt + 1) fuel
        ⟨r.outcome, 2 ^ attempt :: r.sleeps, r.calls + 1⟩
      else
        ⟨some (.raised), [], 1⟩

/-- `make_request_with_retry(url, headers, max_retries, timeout)`:
the url, headers and timeout only parametrise the network oracle `net`. -/
def make_request_with_retry (net : Nat → FetchOutcome) (max_retries : Nat) : RetryResult :=
  retryAux net max_retries 0 max_retries

/-! ## CollectionDiscoverer: the dedup merge of
`fetch_all_tours_from_collection` (src/tours.py lines 606-618,
src/app.py lines 982-994; the two copies are identical). -/

/-- A parsed tour reference; identity is `id` (`tour['id']` in the
source), `name` stands for the remaining best-effort fields. -/
structure Tour where
  id : Nat
  name : String
deriving DecidableEq, Repr

/-- The running discovery state: `all_tour_ids` is the set of ids seen
so far (a Python `set`, modelled as a list used only through
membership), `all_tours` the accumulated deduplicated list. -/
structure DedupState where
  all_tour_ids : List Nat
  all_tours : List Tour
deriving DecidableEq, Repr

/-- One merge of a parsed tour into the running state, mirroring
```
if tour['id'] not in all_tour_ids:
    all_tour_ids.add(tour['id'])
    all_tours.append(tour)
``` -/
def mergeTour (st : DedupState) (t : Tour) : DedupState :=
  if t.id ∈ st.all_tour_ids then st
  else ⟨t.id :: st.all_tour_ids, st.all_tours ++ [t]⟩

/-- Merging one probe result (`for tour in page_tours: ...`). -/
def mergePage (st : DedupState) (page : List Tour) : DedupState :=
  page.foldl mergeTour st

/-- Merging a sequence of probe results in completion order
(the `for future in concurrent.futures.as_completed(...)` loop). -/
def mergePages (st : DedupState) (pages : List (List Tour)) : DedupState :=
  pages.foldl mergePage st

/-- `fetch_all_tours_from_collection`, reduced to its discovery core.
`initialTours` is the parse of the base listing page (already
deduplicated within the page by `extract_tours_from_html`),
`expected_count` the heuristic count (0 means unknown), and
`probeResults` the parses of the candidate probe urls
(`?page=2..20` and `?size=50,100,200,300,500`) listed in completion
order; a probe that failed or returned non-200 contributes `[]`.
Mirrors:
```
all_tour_ids = set(tour['id'] for tour in collection.get('tours', []))
all_tours = collection.get('tours', []).copy()
initial_tour_count = len(all_tours)
if expected_count > initial_tour_count or expected_count == 0:
    ... submit all candidate urls, merge every completed future ...
collection['tours'] = all_tours
``` -/
def fetch_all_tours_from_collection (initialTours : List Tour) (expected_count : Nat)
    (probeResults : List (List Tour)) : DedupState :=
  let st0 : DedupState := ⟨initialTours.map Tour.id, initialTours⟩
  if expected_count > initialTours.length ∨ expected_count = 0 then
    mergePages st0 probeResults
  else
    st0

/-- Well-formedness of a discovery state: the tour list is
duplicate-free by id and the id set indexes exactly the list. -/
def WFDedup (st : DedupState) : Prop :=
  (st.all_tours.map Tour.id).Nodup ∧
    ∀ x, x ∈ st.all_tour_ids ↔ x ∈ st.all_tours.map Tour.id

/-! ## ProgressTracker: the shared `processing_status` dict
(src/app.py lines 122-143, src/tours.py routes). -/

/-- One entry of the status log.  The source stores rendered,
timestamped f-strings; the timestamp is wall-clock presentation and the
message text is determined by its format string and arguments, so a log
entry is modelled as the constructor for its format string applied to
those arguments.  Constructors cover the messages emitted on the
modelled paths.  -/
inductive LogEntry where
  /-- "Output directory set to: {output_dir}" (start_processing). -/
  | outputDirSet
  /-- "Logging in to Komoot as {email}..." -/
  | loggingIn
  /-- "Logged in as {display_name}" -/
  | loggedIn
  /-- "Downloading to directory: {output_dir}" -/
  | downloadingTo
  /-- "Fetching all {filter_type} tours..." -/
  | fetchingAll
  /-- "Found {len(tours)} tours" -/
  | foundTours (n : Nat)
  /-- "Processing chunk {start_idx}-{end_idx} ({len(tour_ids)} tours)" -/
  | processingChunk (start_idx end_idx k : Nat)
  /-- "Error processing tour {tour_id}: {str(e)}" (the caught
  per-unit exception inside process_single_tour / process_tour). -/
  | errorTour (tour_id : Nat)
  /-- "Completed tour {completed_count}/{len(tour_ids)}: {name or Error}" -/
  | completedTour (completed_count n : Nat) (ok : Bool)
  /-- "Processing completed. Processed {len(results)} tours." -/
  | processingCompleted (k : Nat)
  /-- "Starting download of {total_tours} tours from {total_collections}
  collections" (download_collection_tours_thread). -/
  | startingDownload (total_tours total_collections : Nat)
  /-- "Processing collection {idx+1}/{total_collections}: {name}" -/
  | processingCollection (idx total_collections : Nat)
  /-- "Collection output directory: {collection_dir}" -/
  | collectionOutputDir
  /-- "Created CSV summary at {csv_path}" -/
  | createdCsv
  /-- "Completed collection: {name} with {len(results)} tours" -/
  | completedCollection (k : Nat)
  /-- "Download completed. Downloaded {completed_tours} tours from
  {completed_collections} collections." -/
  | downloadCompleted (t c : Nat)
deriving DecidableEq, Repr

/-- The `processing_status` dictionary.  `results` keeps, for each
successfully processed tour, the id of its result record (the record
itself carries name, distance and file name, which the claims never
inspect).  `progress` is a Python float computed as an exact division
of small integers, modelled as a rational. -/
structure Status where
  status : String
  progress : Rat
  tours_found : Nat
  tours_completed : Nat
  collections_found : Nat
  collections_completed : Nat
  error : Option String
  log : List LogEntry
  results : List Nat
  next_chunk : Nat
deriving DecidableEq, Repr

/-- `reset_status(status_dict)` (src/app.py lines 122-133): every field
is overwritten with its initial value, so the input is ignored. -/
def reset_status (_st : Status) : Status :=
  { status := "idle", progress := 0, tours_found := 0, tours_completed := 0,
    collections_found := 0, collections_completed := 0, error := none,
    log := [], results := [], next_chunk := 0 }

/-- `add_log_entry(message, status_dict)` (src/app.py lines 135-143):
append, then truncate to the last 100 entries when the length exceeds
200 (`status_dict['log'] = status_dict['log'][-100:]`). -/
def add_log_entry (message : LogEntry) (st : Status) : Status :=
  let l := st.log ++ [message]
  { st with log := if l.length > 200 then l.drop (l.length - 100) else l }

/-- The `/api/status` route (src/app.py lines 1196-1200, src/tours.py
lines 1036-1039): under the lock, the whole status dict is serialised
and returned unchanged. -/
def get_status (st : Status) : Status :=
  st

/-- The `/api/clear` route (src/app.py lines 1210-1215, src/tours.py
lines 1049-1054): under the lock, `results` is emptied and
`{'success': True}` is returned; no other field is consulted. -/
def clear_results (st : Status) : Status × Bool :=
  ({ st with results := [] }, true)

/-! ## JobOrchestrator: `process_tours` for `tour_selection == 'all'`
(src/tours.py lines 673-830) and the `/api/start` route
(src/tours.py lines 971-1032; the app.py copy behaves identically on
this path). -/

/-- `list(tours.keys())[start_idx:end_idx]` with
`end_idx = min(start_idx + chunk_size, len(tours))` when
`chunk_size > 0`, and the whole key list otherwise. -/
def chunkIds (tours : List Nat) (chunk_size chunk_start : Nat) : List Nat :=
  if chunk_size > 0 then
    (tours.drop chunk_start).take (min (chunk_start + chunk_size) tours.length - chunk_start)
  else
    tours

/-- State threaded through the `as_completed` loop of `process_tours`:
the local `completed_count` and `results` variables, the shared status,
and the trace of every status value observable by a concurrent
`/api/status` poll (one snapshot per lock-guarded mutation). -/
structure LoopState where
  completed_count : Nat
  results : List Nat
  st : Status
  trace : List Status

/-- The locked three-field update performed after one future of the
as_completed loop resolves (`completed_count += 1` is the local
variable; the base status is `ls.st`, extended by the error entry the
failing worker logged when `dl tour_id` is false):
```
with processing_lock:
    processing_status['tours_completed'] = completed_count
    processing_status['progress'] = completed_count / len(tour_ids)
    processing_status['results'] = results.copy()
``` -/
def step_upd_status (dl : Nat → Bool) (n : Nat) (ls : LoopState) (tour_id : Nat) : Status :=
  { (if dl tour_id then ls.st else add_log_entry (.errorTour tour_id) ls.st) with
    tours_completed := ls.completed_count + 1,
    progress := ((ls.completed_count + 1 : Nat) : Rat) / (n : Rat),
    results := if dl tour_id then ls.results ++ [tour_id] else ls.results }

/-- One iteration of
`for future in concurrent.futures.as_completed(future_to_tour)` in
`process_tours` (src/tours.py lines 797-811), for the future of
`tour_id`.  `dl tour_id` tells whether `process_single_tour` produced a
result record; when it raised, the exception was caught inside
`process_single_tour`, which logged an error entry and returned `None`.
`n` is `len(tour_ids)`.  After the locked update, the loop logs the
`Completed tour k/n` message. -/
def process_tour_step (dl : Nat → Bool) (n : Nat) (ls : LoopState) (tour_id : Nat) :
    LoopState :=
  ⟨ls.completed_count + 1,
   (if dl tour_id then ls.results ++ [tour_id] else ls.results),
   add_log_entry (.completedTour (ls.completed_count + 1) n (dl tour_id))
     (step_upd_status dl n ls tour_id),
   (if dl tour_id then ls.trace
     else ls.trace ++ [add_log_entry (.errorTour tour_id) ls.st])
     ++ [step_upd_status dl n ls tour_id,
         add_log_entry (.completedTour (ls.completed_count + 1) n (dl tour_id))
           (step_upd_status dl n ls tour_id)]⟩

/-- The sequence of status mutations `process_tours` performs on the
`tour_selection == 'all'` branch before its download loop starts:
set `status = 'running'`, log the login and output-directory messages,
record `tours_found = len(tours)`, and — only when chunking is active
(`chunk_size > 0`) — record `next_chunk = end_idx` and log the chunk
message.  `s7pre` is the state after the unconditional part. -/
def s7pre (tours : List Nat) (st0 : Status) : Status :=
  add_log_entry (.foundTours tours.length)
    { add_log_entry .fetchingAll
        (add_log_entry .downloadingTo
          (add_log_entry .loggedIn
            (add_log_entry .loggingIn { st0 with status := "running" }))) with
      tours_found := tours.length }

/-- The state entering the download loop (after the conditional
`next_chunk` write and chunk log message). -/
def preloop_status (tours : List Nat) (chunk_size chunk_start : Nat) (st0 : Status) :
    Status :=
  if chunk_size > 0 then
    add_log_entry
      (.processingChunk chunk_start (min (chunk_start + chunk_size) tours.length)
        (chunkIds tours chunk_size chunk_start).length)
      { s7pre tours st0 with next_chunk := min (chunk_start + chunk_size) tours.length }
  else s7pre tours st0

/-- The snapshots observable (one per lock-guarded mutation) between
job start and the first loop iteration. -/
def preloop_trace (tours : List Nat) (chunk_size chunk_start : Nat) (st0 : Status) :
    List Status :=
  let s1 := { st0 with status := "running" }
  let s2 := add_log_entry .loggingIn s1
  let s3 := add_log_entry .loggedIn s2
  let s4 := add_log_entry .downloadingTo s3
  let s5 := add_log_entry .fetchingAll s4
  let s6 := { s5 with tours_found := tours.length }
  let s7 := add_log_entry (.foundTours tours.length) s6
  if chunk_size > 0 then
    [s1, s2, s3, s4, s5, s6, s7,
      { s7 with next_chunk := min (chunk_start + chunk_size) tours.length },
      preloop_status tours chunk_size chunk_start st0]
  else [s1, s2, s3, s4, s5, s6, s7]

/-- `process_tours` on the `tour_selection == 'all'` branch, for a
non-anonymous session whose login succeeds (the claims under study all
concern jobs that get past setup).  `tours` is the key list of the dict
returned by `adapter.fetch_tours`, `dl` the per-tour download oracle,
and `order` the order in which the chunk futures complete.  Returns
the final status and the trace of observable status values. -/
def process_tours (dl : Nat → Bool) (tours : List Nat) (order : List Nat)
    (chunk_size chunk_start : Nat) (st0 : Status) : Status × List Status :=
  let end_idx := min (chunk_start + chunk_size) tours.length
  let tour_ids := chunkIds tours chunk_size chunk_start
  -- results = []; completed_count = 0; the as_completed loop
  let ls0 : LoopState := ⟨0, [], preloop_status tours chunk_size chunk_start st0,
    preloop_trace tours chunk_size chunk_start st0⟩
  let ls := order.foldl (process_tour_step dl tour_ids.length) ls0
  -- final locked update
  let sF := { ls.st with
    results := ls.results,
    status := if chunk_size > 0 ∧ end_idx < tours.length then "chunk_completed"
              else "completed",
    progress := 1 }
  let sG := add_log_entry (.processingCompleted ls.results.length) sF
  (sG, ls.trace ++ [sF, sG])

/-- The `/api/start` route body on the validated path
(src/tours.py lines 1014-1028): reset the status unconditionally, log
the output directory, then run `process_tours` in a background
thread. -/
def start_processing (dl : Nat → Bool) (tours : List Nat) (order : List Nat)
    (chunk_size chunk_start : Nat) (st0 : Status) : Status × List Status :=
  let sR := reset_status st0
  let sO := add_log_entry .outputDirSet sR
  let (fin, tr) := process_tours dl tours order chunk_size chunk_start sO
  (fin, [sR, sO] ++ tr)

/-! ## JobOrchestrator, collection-job variant:
`download_collection_tours_thread` / `process_collection`
(src/collections.py lines 506-990) and its `/api/download-collection-tours`
route (src/collections.py lines 1514-1552). -/

/-- State threaded through `process_collection`'s inner as_completed
loop for one collection: the shared `completed_tours` counter, the
local `collection_results`, and the shared status. -/
structure CollLoopState where
  completed_tours : Nat
  collection_results : List Nat
  st : Status

/-- One iteration of
`for future in concurrent.futures.as_completed(tour_futures)` in
`process_collection` (src/collections.py lines 827-836), for the
future of `tour_id`:
```
result = future.result()
if result:
    collection_results.append(result)
    completed_tours += 1
    with processing_lock:
        processing_status['tours_completed'] = completed_tours
        processing_status['progress'] = completed_tours / total_tours if total_tours > 0 else 1.0
```
A failing `process_tour` logged its error and returned `None`, so it
takes the `else` branch: no append, no increment, no status update —
unlike the tours.py loop, only successful units advance the counter.
(The source writes `completed_tours += 1` inside the nested
`process_collection` without a `nonlocal` declaration; the embedding
gives the written update its evident shared-counter semantics.  Under
CPython scoping rules the bare augmented assignment would instead
raise `UnboundLocalError` at the first successful unit, aborting the
collection with an empty result set — on either reading the counter
never reaches the number of attempted units.) -/
def process_collection_tour_step (dl : Nat → Bool) (total_tours : Nat)
    (cls : CollLoopState) (tour_id : Nat) : CollLoopState :=
  if dl tour_id then
    { completed_tours := cls.completed_tours + 1,
      collection_results := cls.collection_results ++ [tour_id],
      st := { cls.st with
        tours_completed := cls.completed_tours + 1,
        progress := if total_tours > 0
          then ((cls.completed_tours + 1 : Nat) : Rat) / (total_tours : Rat)
          else 1 } }
  else
    { cls with st := add_log_entry (.errorTour tour_id) cls.st }

/-- The status mutations of `download_collection_tours_thread` before
its per-tour loop, for a job of one collection whose tours are already
present: set `running`, record `tours_found = total_tours`, and log
the startup and per-collection messages. -/
def coll_pre_status (tours : List Nat) (st0 : Status) : Status :=
  add_log_entry .collectionOutputDir
    (add_log_entry (.processingCollection 1 1)
      (add_log_entry (.startingDownload tours.length 1)
        { st0 with status := "running", tours_found := tours.length }))

/-- `download_collection_tours_thread` for a job of a single
collection carrying `tours` (the shape of the claims under study; the
outer collection pool degenerates to one task).  File outputs
(metadata, summary JSON, CSV) are out-of-scope collaborators modelled
as succeeding; their log messages are kept.  `order` is the completion
order of the tour futures. -/
def download_collection_tours_thread (dl : Nat → Bool) (tours : List Nat)
    (order : List Nat) (st0 : Status) : Status :=
  let cls := order.foldl (process_collection_tour_step dl tours.length)
    ⟨0, [], coll_pre_status tours st0⟩
  -- summary/CSV written, collection future collected:
  -- all_results.extend(...); completed_collections += 1
  let st8 := { add_log_entry (.completedCollection cls.collection_results.length)
                 (add_log_entry .createdCsv cls.st) with
               results := cls.collection_results,
               status := "completed",
               progress := 1,
               tours_completed := cls.completed_tours }
  add_log_entry (.downloadCompleted cls.completed_tours 1) st8

/-- The `/api/download-collection-tours` route body on the validated
path (src/collections.py lines 1545-1556): reset the status
unconditionally, then run the download thread. -/
def download_collection_tours (dl : Nat → Bool) (tours : List Nat)
    (order : List Nat) (st0 : Status) : Status :=
  download_collection_tours_thread dl tours order (reset_status st0)

/-- Pointwise order on the polled fields: a later snapshot never shows
smaller `tours_completed` or smaller `progress`. -/
def statusLe (a b : Status) : Prop :=
  a.tours_completed ≤ b.tours_completed ∧ a.progress ≤ b.progress

instance : IsTrans Status statusLe :=
  ⟨fun _ _ _ h₁ h₂ => ⟨le_trans h₁.1 h₂.1, le_trans h₁.2 h₂.2⟩⟩

/-- Recogniser for per-unit error log entries. -/
def isErrorEntry : LogEntry → Bool
  | .errorTour _ => true
  | _ => false

/-! ## Concrete data used by witnesses and counterexamples. -/

/-- A download oracle on which every tour unit succeeds. -/
def dlOk : Nat → Bool := fun _ => true

/-- A download oracle on which exactly the units for tours 3 and 7
raise; every other unit succeeds. -/
def dlFail37 : Nat → Bool := fun t => !(t == 3 || t == 7)

/-- Ten concrete tour ids. -/
def demo10 : List Nat := [1, 2, 3, 4, 5, 6, 7, 8, 9, 10]

/-- A network oracle whose first two attempts hit connection errors
and whose third attempt returns HTTP 200. -/
def netDemo : Nat → FetchOutcome := fun k => if k < 2 then .netErr else .resp 200

/-- A quiescent status value, as left by `reset_status`. -/
def initialStatus : Status :=
  { status := "idle", progress := 0, tours_found := 0, tours_completed := 0,
    collections_found := 0, collections_completed := 0, error := none,
    log := [], results := [], next_chunk := 0 }

/-- First chunk request: three tours, `chunkSize = 2`, `chunkStart = 0`;
both tours of the chunk download fine. -/
def chunkRun1 : Status := (start_processing dlOk [1, 2, 3] [1, 2] 2 0 initialStatus).1

/-- Follow-up request at `chunkStart = nextChunkOffset = 2` issued
against the status left by the first chunk. -/
def chunkRun2 : Status := (start_processing dlOk [1, 2, 3] [3] 2 2 chunkRun1).1

/-- An all-tours job with `chunkSize = 0` (no chunking) over two
tours. -/
def unboundedRun : Status := (start_processing dlOk [1, 2] [1, 2] 0 0 initialStatus).1

/-- A status polled mid-job: state `running` with stored results. -/
def runningStatus : Status :=
  { status := "running", progress := 1 / 2, tours_found := 4, tours_completed := 2,
    collections_found := 0, collections_completed := 0, error := none,
    log := [.foundTours 4], results := [1, 2], next_chunk := 0 }

/-- A status whose retained log is at the 200-entry cap. -/
def fullLogStatus : Status :=
  { status := "idle", progress := 0, tours_found := 0, tours_completed := 0,
    collections_found := 0, collections_completed := 0, error := none,
    log := List.replicate 200 LogEntry.outputDirSet, results := [], next_chunk := 0 }

/-! ## Theorems -/

/-- Claim C10: calling the retrying fetch with `max_retries = 0`
issues no HTTP request at all and returns `None` — neither a response
nor a raised error. -/
theorem retry_zero_returns_none (net : Nat → FetchOutcome) :
    make_request_with_retry net 0 = ⟨none, [], 0⟩ :=
  rfl

/-- Claim C3, amended: `ClearResults` never fails and never consults
the job state: for every status — in particular while
`status = "running"` — it reports success, empties `results`, and
leaves every other field unchanged. -/
theorem clear_results_always_clears (st : Status) :
    (clear_results st).2 = true
    ∧ (clear_results st).1.results = []
    ∧ (clear_results st).1.status = st.status
    ∧ (clear_results st).1.log = st.log
    ∧ (clear_results st).1.tours_completed = st.tours_completed
    ∧ (clear_results st).1.progress = st.progress :=
  ⟨rfl, rfl, rfl, rfl, rfl, rfl⟩

/-- Counterexample to claim C3 as stated: on a concrete status in the
`running` state with stored results, `ClearResults` is not rejected —
it reports success and clears the results. -/
theorem clear_results_while_running_cex :
    runningStatus.status = "running"
    ∧ runningStatus.results ≠ []
    ∧ (clear_results runningStatus).2 = true
    ∧ (clear_results runningStatus).1.results = [] := by
  refine ⟨rfl, by decide, rfl, rfl⟩

/-- Claim C2, amended: the status is reinitialized by `reset_status`
on every start request, whatever the chunk start; the outcome of a
start request is therefore completely independent of the status the
previous chunk left behind, so prior `results` and `log` are
discarded rather than accumulated. -/
theorem reset_always_reinitializes (dl : Nat → Bool) (tours order : List Nat)
    (chunk_size chunk_start : Nat) (st0 st0' : Status) :
    start_processing dl tours order chunk_size chunk_start st0 =
      start_processing dl tours order chunk_size chunk_start st0' :=
  rfl

/-- Counterexample to claim C2 as stated: running `start = 0` over a
chunk of 2 tours and then resuming at `start = nextChunkOffset = 2`
(1 tour) leaves a `results` list of length 1, not `2 + 1`, and the
first call's `Processing chunk 0-2` log entry is gone. -/
theorem resume_discards_history_cex :
    chunkRun1.results.length = 2
    ∧ chunkRun1.next_chunk = 2
    ∧ LogEntry.processingChunk 0 2 2 ∈ chunkRun1.log
    ∧ chunkRun2.results.length = 1
    ∧ ¬ chunkRun2.results.length = 2 + 1
    ∧ LogEntry.processingChunk 0 2 2 ∉ chunkRun2.log := by
  decide

/-- Claim C9, amended: `add_log_entry` keeps the stored log at no more
than 200 entries, always retains a suffix (the most recent entries) of
the appended log, and truncates to exactly the most recent 100 entries
when the cap is exceeded; but a status snapshot returns the log in
full — it is not cut down to the most recent ten entries. -/
theorem log_buffer_spec :
    (∀ m st, (add_log_entry m st).log.length ≤ max 200 st.log.length)
    ∧ (∀ m st, (add_log_entry m st).log <:+ st.log ++ [m])
    ∧ (∀ m st, 200 < st.log.length + 1 →
        (add_log_entry m st).log = (st.log ++ [m]).drop (st.log.length + 1 - 100))
    ∧ (∀ st, (get_status st).log = st.log) := by
  refine ⟨fun m st => ?_, fun m st => ?_, fun m st h => ?_, fun st => rfl⟩
  · by_cases h : (st.log ++ [m]).length > 200
    · simp only [add_log_entry, if_pos h]
      simp only [List.length_drop]
      omega
    · simp only [add_log_entry, if_neg h]
      simp only [List.length_append, List.length_singleton] at h ⊢
      omega
  · by_cases h : (st.log ++ [m]).length > 200
    · simp only [add_log_entry, if_pos h]
      exact List.drop_suffix _ _
    · simp only [add_log_entry, if_neg h]
      exact List.suffix_refl _
  · have h' : (st.log ++ [m]).length > 200 := by
      simp only [List.length_append, List.length_singleton]; omega
    simp only [add_log_entry, if_pos h']
    simp only [List.length_append, List.length_singleton]

/-- Witness for `log_buffer_spec`: appending to a log already at the
200-entry cap keeps the bound, and the truncating branch applies. -/
theorem log_buffer_spec_witness :
    (add_log_entry LogEntry.loggingIn fullLogStatus).log.length ≤ max 200 fullLogStatus.log.length
    ∧ (add_log_entry LogEntry.loggingIn fullLogStatus).log =
        (fullLogStatus.log ++ [LogEntry.loggingIn]).drop
          (fullLogStatus.log.length + 1 - 100) := by
  refine ⟨log_buffer_spec.1 LogEntry.loggingIn fullLogStatus,
          log_buffer_spec.2.2.1 LogEntry.loggingIn fullLogStatus ?_⟩
  simp only [fullLogStatus, List.length_replicate]
  omega

/-- Counterexample to claim C9 as stated: a snapshot of a status whose
retained log holds 200 entries returns all 200 of them, not only the
most recent ten. -/
theorem snapshot_full_log_cex :
    (get_status fullLogStatus).log.length = 200
    ∧ ¬ (get_status fullLogStatus).log.length ≤ 10 := by
  have h : (get_status fullLogStatus).log.length = 200 := by
    simp only [get_status, fullLogStatus, List.length_replicate]
  exact ⟨h, by omega⟩

/-- The retry loop issues at most as many requests as it has remaining
iterations. -/
theorem retryAux_calls_le (net : Nat → FetchOutcome) (m : Nat) :
    ∀ fuel attempt, (retryAux net m attempt fuel).calls ≤ fuel
  | 0, _ => le_refl _
  | fuel + 1, attempt => by
    unfold retryAux
    cases net attempt with
    | resp s => exact Nat.le_add_left _ _
    | netErr =>
      by_cases h : attempt < m - 1
      · simp only [if_pos h]
        exact Nat.succ_le_succ (retryAux_calls_le net m fuel (attempt + 1))
      · simp only [if_neg h]
        exact Nat.le_add_left _ _

/-- If every attempt from `attempt` up to `m - 1` hits a network
error, the loop sleeps `2^attempt, …, 2^(m-2)` and finally re-raises
the error of attempt `m - 1`. -/
theorem retryAux_all_fail (net : Nat → FetchOutcome) (m : Nat) :
    ∀ fuel attempt, 0 < fuel → attempt + fuel = m →
      (∀ k, attempt ≤ k → k < m → net k = .netErr) →
      retryAux net m attempt fuel =
        ⟨some .raised, (List.range' attempt (fuel - 1)).map (fun k => 2 ^ k), fuel⟩
  | 0, _, hfuel, _, _ => absurd hfuel (by omega)
  | fuel + 1, attempt, _, hm, hfail => by
    unfold retryAux
    rw [hfail attempt (le_refl _) (by omega)]
    by_cases h : attempt < m - 1
    · have hfuel' : 0 < fuel := by omega
      rw [if_pos h,
        retryAux_all_fail net m fuel (attempt + 1) hfuel' (by omega)
          (fun k hk hk' => hfail k (by omega) hk')]
      have hr : List.range' attempt fuel =
          attempt :: List.range' (attempt + 1) (fuel - 1) := by
        conv_lhs => rw [show fuel = (fuel - 1) + 1 by omega]
        rw [List.range'_succ]
      simp [hr]
    · have hfuel0 : fuel = 0 := by omega
      rw [if_neg h]
      simp [hfuel0]

/-- If attempts `attempt, …, j - 1` hit network errors and attempt `j`
returns a response, the loop sleeps `2^attempt, …, 2^(j-1)` and
returns that response as-is, whatever its status code. -/
theorem retryAux_first_success (net : Nat → FetchOutcome) (m : Nat) :
    ∀ fuel attempt j s, attempt + fuel = m → attempt ≤ j → j < m →
      (∀ k, attempt ≤ k → k < j → net k = .netErr) → net j = .resp s →
      retryAux net m attempt fuel =
        ⟨some (.returned s), (List.range' attempt (j - attempt)).map (fun k => 2 ^ k),
          j - attempt + 1⟩
  | 0, attempt, j, _, hm, hle, hlt, _, _ => absurd hlt (by omega)
  | fuel + 1, attempt, j, s, hm, hle, hlt, hfail, hsucc => by
    unfold retryAux
    rcases Nat.eq_or_lt_of_le hle with heq | hltj
    · subst heq
      rw [hsucc]
      simp
    · rw [hfail attempt (le_refl _) hltj]
      have h : attempt < m - 1 := by omega
      rw [if_pos h,
        retryAux_first_success net m fuel (attempt + 1) j s (by omega) (by omega) hlt
          (fun k hk hk' => hfail k (by omega) hk') hsucc]
      have hr : List.range' attempt (j - attempt) =
          attempt :: List.range' (attempt + 1) (j - (attempt + 1)) := by
        have : j - attempt = (j - (attempt + 1)) + 1 := by omega
        rw [this, List.range'_succ]
      have hc : j - (attempt + 1) + 1 + 1 = j - attempt + 1 := by omega
      simp [hr, hc]

/-- Claim C4: for `max_retries ≥ 1`, the fetch
(i) returns any response of the first attempt as-is — no retry, no
sleep — whatever its HTTP status;
(ii) when attempts `0, …, j-1` fail with connection/timeout errors and
attempt `j < max_retries` gets a response, it slept exactly
`2^0, …, 2^(j-1)` seconds after the failed attempts and returns that
response;
(iii) when all `max_retries` attempts fail, it slept
`2^0, …, 2^(max_retries-2)` and propagates the final error
(`raise e`) instead of swallowing it;
(iv) it never issues more than `max_retries` requests. -/
theorem retry_backoff_spec (net : Nat → FetchOutcome) (max_retries : Nat)
    (hmr : 1 ≤ max_retries) :
    (∀ s, net 0 = .resp s →
        make_request_with_retry net max_retries = ⟨some (.returned s), [], 1⟩)
    ∧ (∀ j s, j < max_retries → (∀ k, k < j → net k = .netErr) → net j = .resp s →
        make_request_with_retry net max_retries =
          ⟨some (.returned s), (List.range j).map (fun k => 2 ^ k), j + 1⟩)
    ∧ ((∀ k, k < max_retries → net k = .netErr) →
        make_request_with_retry net max_retries =
          ⟨some .raised, (List.range (max_retries - 1)).map (fun k => 2 ^ k), max_retries⟩)
    ∧ (make_request_with_retry net max_retries).calls ≤ max_retries := by
  refine ⟨fun s h0 => ?_, fun j s hj hfail hsucc => ?_, fun hfail => ?_,
    retryAux_calls_le net max_retries max_retries 0⟩
  · have h := retryAux_first_success net max_retries max_retries 0 0 s (by omega)
      (le_refl _) (by omega) (fun k hk hk' => absurd hk' (by omega)) h0
    simpa [make_request_with_retry] using h
  · have h := retryAux_first_success net max_retries max_retries 0 j s (by omega)
      (Nat.zero_le _) hj (fun k _ hk' => hfail k hk') hsucc
    rw [make_request_with_retry, h, List.range_eq_range']
    simp
  · have h := retryAux_all_fail net max_retries max_retries 0 (by omega) (by omega)
      (fun k _ hk' => hfail k hk')
    rw [make_request_with_retry, h, List.range_eq_range']

/-- Witness for `retry_backoff_spec`: with `max_retries = 3`, two
connection errors followed by an HTTP 200 response yield that response
after sleeping 1 s then 2 s — the scenario of the spec, instantiated
through the theorem. -/
theorem retry_backoff_spec_witness :
    make_request_with_retry netDemo 3 =
      ⟨some (.returned 200), (List.range 2).map (fun k => 2 ^ k), 3⟩ :=
  (retry_backoff_spec netDemo 3 (by decide)).2.1 2 200 (by decide)
    (fun k hk => by interval_cases k <;> rfl) rfl

/-- Membership in the id set after one merge. -/
theorem mergeTour_ids_mem (st : DedupState) (t : Tour) (x : Nat) :
    x ∈ (mergeTour st t).all_tour_ids ↔ x = t.id ∨ x ∈ st.all_tour_ids := by
  unfold mergeTour
  split
  · next h =>
    constructor
    · exact Or.inr
    · rintro (rfl | hx)
      · exact h
      · exact hx
  · next h =>
    simp [List.mem_cons]

/-- Merging a tour whose id was already seen changes nothing. -/
theorem mergeTour_seen_noop (st : DedupState) (t : Tour) (h : t.id ∈ st.all_tour_ids) :
    mergeTour st t = st := by
  unfold mergeTour
  exact if_pos h

/-- One merge preserves well-formedness. -/
theorem WFDedup_mergeTour {st : DedupState} (h : WFDedup st) (t : Tour) :
    WFDedup (mergeTour st t) := by
  obtain ⟨hnd, hiff⟩ := h
  unfold mergeTour
  split
  · exact ⟨hnd, hiff⟩
  · next hmem =>
    have htid : t.id ∉ st.all_tours.map Tour.id := fun hx => hmem ((hiff t.id).mpr hx)
    constructor
    · have hperm := List.perm_append_singleton t.id (st.all_tours.map Tour.id)
      simp only [List.map_append, List.map_cons, List.map_nil]
      exact hperm.nodup_iff.mpr (List.nodup_cons.mpr ⟨htid, hnd⟩)
    · intro x
      simp only [List.mem_cons, List.map_append, List.mem_append, List.map_cons,
        List.map_nil, List.mem_singleton, hiff x]
      tauto

/-- Membership in the id set after merging one probe result. -/
theorem mergePage_ids_mem (page : List Tour) :
    ∀ (st : DedupState) (x : Nat),
      x ∈ (mergePage st page).all_tour_ids ↔ x ∈ page.map Tour.id ∨ x ∈ st.all_tour_ids := by
  induction page with
  | nil => intro st x; simp [mergePage]
  | cons t p ih =>
    intro st x
    have hfold : mergePage st (t :: p) = mergePage (mergeTour st t) p := rfl
    rw [hfold, ih (mergeTour st t) x, mergeTour_ids_mem]
    simp only [List.map_cons, List.mem_cons]
    tauto

/-- Merging one probe result preserves well-formedness. -/
theorem WFDedup_mergePage (page : List Tour) :
    ∀ {st : DedupState}, WFDedup st → WFDedup (mergePage st page) := by
  induction page with
  | nil => intro st h; exact h
  | cons t p ih => intro st h; exact ih (WFDedup_mergeTour h t)

/-- Membership in the id set after merging a probe sequence. -/
theorem mergePages_ids_mem (pages : List (List Tour)) :
    ∀ (st : DedupState) (x : Nat),
      x ∈ (mergePages st pages).all_tour_ids ↔
        (∃ page ∈ pages, x ∈ page.map Tour.id) ∨ x ∈ st.all_tour_ids := by
  induction pages with
  | nil => intro st x; simp [mergePages]
  | cons p ps ih =>
    intro st x
    have hfold : mergePages st (p :: ps) = mergePages (mergePage st p) ps := rfl
    rw [hfold, ih (mergePage st p) x, mergePage_ids_mem]
    simp only [List.mem_cons]
    constructor
    · rintro (⟨q, hq, hx⟩ | hx | hx)
      · exact Or.inl ⟨q, Or.inr hq, hx⟩
      · exact Or.inl ⟨p, Or.inl rfl, hx⟩
      · exact Or.inr hx
    · rintro (⟨q, rfl | hq, hx⟩ | hx)
      · exact Or.inr (Or.inl hx)
      · exact Or.inl ⟨q, hq, hx⟩
      · exact Or.inr (Or.inr hx)

/-- Merging a probe sequence preserves well-formedness. -/
theorem WFDedup_mergePages (pages : List (List Tour)) :
    ∀ {st : DedupState}, WFDedup st → WFDedup (mergePages st pages) := by
  induction pages with
  | nil => intro st h; exact h
  | cons p ps ih => intro st h; exact ih (WFDedup_mergePage p h)

/-- A probe result all of whose ids were already seen merges to
nothing. -/
theorem mergePage_noop (page : List Tour) :
    ∀ (st : DedupState), (∀ t ∈ page, t.id ∈ st.all_tour_ids) → mergePage st page = st := by
  induction page with
  | nil => intro st _; rfl
  | cons t p ih =>
    intro st h
    have hfold : mergePage st (t :: p) = mergePage (mergeTour st t) p := rfl
    rw [hfold, mergeTour_seen_noop st t (h t (List.mem_cons_self t p))]
    exact ih st (fun u hu => h u (List.mem_cons_of_mem t hu))

/-- Claim C5: merging probe results into the discovery state
(i) keeps the final tours list free of duplicate ids (for any probe
results merged in any completion order, given the base-page parse is
itself duplicate-free, which `extract_tours_from_html` guarantees);
(ii) is a no-op on any tour whose id was already merged from another
probe (idempotence at the tour level);
(iii) is idempotent at the probe level; and
(iv) produces an id set that does not depend on the completion order
of the probes (commutativity of the merge). -/
theorem dedup_merge_spec :
    (∀ (initialTours : List Tour) (expected_count : Nat) (probeResults : List (List Tour)),
        (initialTours.map Tour.id).Nodup →
        ((fetch_all_tours_from_collection initialTours expected_count
            probeResults).all_tours.map Tour.id).Nodup)
    ∧ (∀ st t, t.id ∈ st.all_tour_ids → mergeTour st t = st)
    ∧ (∀ st page, mergePage (mergePage st page) page = mergePage st page)
    ∧ (∀ pages pages', pages.Perm pages' → ∀ st x,
        (x ∈ (mergePages st pages).all_tour_ids ↔
          x ∈ (mergePages st pages').all_tour_ids)) := by
  refine ⟨fun initialTours expected_count probeResults hnd => ?_,
    mergeTour_seen_noop, fun st page => ?_, fun pages pages' hperm st x => ?_⟩
  · have hwf0 : WFDedup ⟨initialTours.map Tour.id, initialTours⟩ :=
      ⟨hnd, fun x => Iff.rfl⟩
    unfold fetch_all_tours_from_collection
    split
    · exact (WFDedup_mergePages probeResults hwf0).1
    · exact hnd
  · refine mergePage_noop page _ (fun t ht => ?_)
    rw [mergePage_ids_mem]
    exact Or.inl (List.mem_map_of_mem Tour.id ht)
  · rw [mergePages_ids_mem, mergePages_ids_mem]
    constructor
    · rintro (⟨p, hp, hx⟩ | hx)
      · exact Or.inl ⟨p, hperm.mem_iff.mp hp, hx⟩
      · exact Or.inr hx
    · rintro (⟨p, hp, hx⟩ | hx)
      · exact Or.inl ⟨p, hperm.mem_iff.mpr hp, hx⟩
      · exact Or.inr hx

/-- Witness for `dedup_merge_spec`: on concrete data, the discovery
result is duplicate-free, a second merge of an already-seen id is a
no-op, and swapping two probes leaves the id set unchanged. -/
theorem dedup_merge_spec_witness :
    ((fetch_all_tours_from_collection [⟨1, "a"⟩] 0
        [[⟨2, "b"⟩], [⟨2, "c"⟩]]).all_tours.map Tour.id).Nodup
    ∧ mergeTour ⟨[1], [⟨1, "a"⟩]⟩ ⟨1, "b"⟩ = ⟨[1], [⟨1, "a"⟩]⟩
    ∧ (5 ∈ (mergePages ⟨[], []⟩ [[⟨5, "x"⟩], []]).all_tour_ids ↔
        5 ∈ (mergePages ⟨[], []⟩ [[], [⟨5, "x"⟩]]).all_tour_ids) :=
  ⟨dedup_merge_spec.1 _ 0 _ (by decide),
   dedup_merge_spec.2.1 _ ⟨1, "b"⟩ (by decide),
   dedup_merge_spec.2.2.2 _ _ (List.Perm.swap _ _ _) ⟨[], []⟩ 5⟩

/-- Claim C6, amended: for one collection,
(i) when the base page already yielded at least the (known, non-zero)
expected count, no probe is consumed at all;
(ii) otherwise — expected count unknown (0) or not yet reached — the
full candidate probe list is exhausted: every id of every probe is
merged, so reaching the expected count part-way does not stop the
remaining probes from being awaited and merged;
(iii) a probe returning zero tours (hence zero new ids) never
terminates the search by itself: deleting it from the completion
sequence leaves the result unchanged. -/
theorem discovery_exhaustive_spec :
    (∀ (initialTours : List Tour) (expected_count : Nat) (probeResults : List (List Tour)),
        0 < expected_count → expected_count ≤ initialTours.length →
        fetch_all_tours_from_collection initialTours expected_count probeResults =
          ⟨initialTours.map Tour.id, initialTours⟩)
    ∧ (∀ (initialTours : List Tour) (expected_count : Nat) (probeResults : List (List Tour)),
        (initialTours.length < expected_count ∨ expected_count = 0) →
        ∀ x, x ∈ (fetch_all_tours_from_collection initialTours expected_count
            probeResults).all_tour_ids ↔
          ((∃ page ∈ probeResults, x ∈ page.map Tour.id) ∨ x ∈ initialTours.map Tour.id))
    ∧ (∀ (initialTours : List Tour) (expected_count : Nat) (ps₁ ps₂ : List (List Tour)),
        fetch_all_tours_from_collection initialTours expected_count (ps₁ ++ [] :: ps₂) =
          fetch_all_tours_from_collection initialTours expected_count (ps₁ ++ ps₂)) := by
  refine ⟨fun initialTours expected_count probeResults h1 h2 => ?_,
    fun initialTours expected_count probeResults hcond x => ?_,
    fun initialTours expected_count ps₁ ps₂ => ?_⟩
  · unfold fetch_all_tours_from_collection
    rw [if_neg (by push_neg; omega)]
  · unfold fetch_all_tours_from_collection
    rw [if_pos hcond]
    exact mergePages_ids_mem probeResults _ x
  · have hmp : ∀ st : DedupState,
        mergePages st (ps₁ ++ [] :: ps₂) = mergePages st (ps₁ ++ ps₂) := by
      intro st
      unfold mergePages
      rw [List.foldl_append, List.foldl_append, List.foldl_cons]
      rfl
    unfold fetch_all_tours_from_collection
    by_cases hc : expected_count > initialTours.length ∨ expected_count = 0
    · rw [if_pos hc, if_pos hc]
      exact hmp _
    · rw [if_neg hc, if_neg hc]

/-- Witness for `discovery_exhaustive_spec`: concrete instances of the
no-probe branch and the exhaustion characterisation. -/
theorem discovery_exhaustive_spec_witness :
    fetch_all_tours_from_collection [⟨1, "a"⟩, ⟨2, "b"⟩] 2 [[⟨9, "z"⟩]] =
      ⟨[1, 2], [⟨1, "a"⟩, ⟨2, "b"⟩]⟩
    ∧ (7 ∈ (fetch_all_tours_from_collection [⟨1, "a"⟩] 3 [[⟨7, "q"⟩]]).all_tour_ids ↔
        ((∃ page ∈ [[(⟨7, "q"⟩ : Tour)]], 7 ∈ page.map Tour.id) ∨
          7 ∈ ([⟨1, "a"⟩] : List Tour).map Tour.id)) :=
  ⟨discovery_exhaustive_spec.1 _ 2 _ (by decide) (by decide),
   discovery_exhaustive_spec.2.1 _ 3 _ (Or.inl (by decide)) 7⟩

/-- Counterexample to claim C6 as stated: with `expectedCount = 2`, a
base page yielding one tour and two probes each yielding one new tour,
discovery does not stop once the deduplicated set reaches 2 — the
second probe is still merged and the final set has 3 tours. -/
theorem discovery_no_early_stop_cex :
    (fetch_all_tours_from_collection [⟨1, "a"⟩] 2
        [[⟨2, "b"⟩], [⟨3, "c"⟩]]).all_tours.length = 3
    ∧ ¬ (fetch_all_tours_from_collection [⟨1, "a"⟩] 2
        [[⟨2, "b"⟩], [⟨3, "c"⟩]]).all_tours.length ≤ 2 := by
  decide

@[simp] theorem add_log_entry_status (m : LogEntry) (st : Status) :
    (add_log_entry m st).status = st.status := rfl

@[simp] theorem add_log_entry_progress (m : LogEntry) (st : Status) :
    (add_log_entry m st).progress = st.progress := rfl

@[simp] theorem add_log_entry_tours_found (m : LogEntry) (st : Status) :
    (add_log_entry m st).tours_found = st.tours_found := rfl

@[simp] theorem add_log_entry_tours_completed (m : LogEntry) (st : Status) :
    (add_log_entry m st).tours_completed = st.tours_completed := rfl

@[simp] theorem add_log_entry_results (m : LogEntry) (st : Status) :
    (add_log_entry m st).results = st.results := rfl

@[simp] theorem add_log_entry_next_chunk (m : LogEntry) (st : Status) :
    (add_log_entry m st).next_chunk = st.next_chunk := rfl

@[simp] theorem reset_status_status (st : Status) : (reset_status st).status = "idle" := rfl

@[simp] theorem reset_status_progress (st : Status) : (reset_status st).progress = 0 := rfl

@[simp] theorem reset_status_tours_found (st : Status) :
    (reset_status st).tours_found = 0 := rfl

@[simp] theorem reset_status_tours_completed (st : Status) :
    (reset_status st).tours_completed = 0 := rfl

@[simp] theorem reset_status_log (st : Status) : (reset_status st).log = [] := rfl

@[simp] theorem reset_status_results (st : Status) : (reset_status st).results = [] := rfl

@[simp] theorem reset_status_next_chunk (st : Status) :
    (reset_status st).next_chunk = 0 := rfl

@[simp] theorem s7pre_status (tours : List Nat) (st0 : Status) :
    (s7pre tours st0).status = "running" := rfl

@[simp] theorem s7pre_progress (tours : List Nat) (st0 : Status) :
    (s7pre tours st0).progress = st0.progress := rfl

@[simp] theorem s7pre_tours_found (tours : List Nat) (st0 : Status) :
    (s7pre tours st0).tours_found = tours.length := rfl

@[simp] theorem s7pre_tours_completed (tours : List Nat) (st0 : Status) :
    (s7pre tours st0).tours_completed = st0.tours_completed := rfl

@[simp] theorem s7pre_results (tours : List Nat) (st0 : Status) :
    (s7pre tours st0).results = st0.results := rfl

@[simp] theorem s7pre_next_chunk (tours : List Nat) (st0 : Status) :
    (s7pre tours st0).next_chunk = st0.next_chunk := rfl

@[simp] theorem preloop_status_status (tours : List Nat) (cs cst : Nat) (st0 : Status) :
    (preloop_status tours cs cst st0).status = "running" := by
  unfold preloop_status
  split <;> simp

@[simp] theorem preloop_status_progress (tours : List Nat) (cs cst : Nat) (st0 : Status) :
    (preloop_status tours cs cst st0).progress = st0.progress := by
  unfold preloop_status
  split <;> simp

@[simp] theorem preloop_status_tours_found (tours : List Nat) (cs cst : Nat) (st0 : Status) :
    (preloop_status tours cs cst st0).tours_found = tours.length := by
  unfold preloop_status
  split <;> simp

@[simp] theorem preloop_status_tours_completed (tours : List Nat) (cs cst : Nat)
    (st0 : Status) :
    (preloop_status tours cs cst st0).tours_completed = st0.tours_completed := by
  unfold preloop_status
  split <;> simp

@[simp] theorem preloop_status_results (tours : List Nat) (cs cst : Nat) (st0 : Status) :
    (preloop_status tours cs cst st0).results = st0.results := by
  unfold preloop_status
  split <;> simp

theorem preloop_status_next_chunk (tours : List Nat) (cs cst : Nat) (st0 : Status) :
    (preloop_status tours cs cst st0).next_chunk =
      if cs > 0 then min (cst + cs) tours.length else st0.next_chunk := by
  unfold preloop_status
  split
  · next h => simp [if_pos h]
  · next h => simp [if_neg h]

/-- The log at loop entry, for a run started through the start route
(so on top of a freshly reset status). -/
theorem preloop_status_log_reset (tours : List Nat) (cs cst : Nat) (st0 : Status) :
    (preloop_status tours cs cst (add_log_entry .outputDirSet (reset_status st0))).log =
      [.outputDirSet, .loggingIn, .loggedIn, .downloadingTo, .fetchingAll,
        .foundTours tours.length]
      ++ (if cs > 0 then
            [.processingChunk cst (min (cst + cs) tours.length)
              (chunkIds tours cs cst).length]
          else []) := by
  unfold preloop_status s7pre
  by_cases h : cs > 0 <;>
    simp [h, add_log_entry, reset_status]


/-! ### Facts about one iteration of the as_completed loop. -/

theorem add_log_entry_log_append (m : LogEntry) (st : Status) (h : st.log.length ≤ 199) :
    (add_log_entry m st).log = st.log ++ [m] := by
  simp only [add_log_entry]
  rw [if_neg]
  simp only [List.length_append, List.length_singleton]
  omega

theorem process_tour_step_completed (dl : Nat → Bool) (n : Nat) (ls : LoopState) (t : Nat) :
    (process_tour_step dl n ls t).completed_count = ls.completed_count + 1 := rfl

theorem process_tour_step_results (dl : Nat → Bool) (n : Nat) (ls : LoopState) (t : Nat) :
    (process_tour_step dl n ls t).results =
      if dl t then ls.results ++ [t] else ls.results := rfl

theorem process_tour_step_st_eq (dl : Nat → Bool) (n : Nat) (ls : LoopState) (t : Nat) :
    (process_tour_step dl n ls t).st =
      add_log_entry (.completedTour (ls.completed_count + 1) n (dl t))
        (step_upd_status dl n ls t) := rfl

theorem process_tour_step_trace (dl : Nat → Bool) (n : Nat) (ls : LoopState) (t : Nat) :
    (process_tour_step dl n ls t).trace =
      (if dl t then ls.trace
        else ls.trace ++ [add_log_entry (.errorTour t) ls.st])
      ++ [step_upd_status dl n ls t, (process_tour_step dl n ls t).st] := rfl

@[simp] theorem step_upd_status_tours_completed (dl : Nat → Bool) (n : Nat) (ls : LoopState)
    (t : Nat) :
    (step_upd_status dl n ls t).tours_completed = ls.completed_count + 1 := rfl

@[simp] theorem step_upd_status_progress (dl : Nat → Bool) (n : Nat) (ls : LoopState)
    (t : Nat) :
    (step_upd_status dl n ls t).progress =
      ((ls.completed_count + 1 : Nat) : Rat) / (n : Rat) := rfl

theorem step_upd_status_status (dl : Nat → Bool) (n : Nat) (ls : LoopState) (t : Nat) :
    (step_upd_status dl n ls t).status = ls.st.status := by
  unfold step_upd_status
  by_cases h : dl t <;> simp [h]

theorem step_upd_status_next_chunk (dl : Nat → Bool) (n : Nat) (ls : LoopState) (t : Nat) :
    (step_upd_status dl n ls t).next_chunk = ls.st.next_chunk := by
  unfold step_upd_status
  by_cases h : dl t <;> simp [h]

theorem step_upd_status_tours_found (dl : Nat → Bool) (n : Nat) (ls : LoopState) (t : Nat) :
    (step_upd_status dl n ls t).tours_found = ls.st.tours_found := by
  unfold step_upd_status
  by_cases h : dl t <;> simp [h]

theorem step_upd_status_log (dl : Nat → Bool) (n : Nat) (ls : LoopState) (t : Nat) :
    (step_upd_status dl n ls t).log =
      if dl t then ls.st.log else (add_log_entry (.errorTour t) ls.st).log := by
  unfold step_upd_status
  by_cases h : dl t <;> simp [h]

theorem process_tour_step_st_status (dl : Nat → Bool) (n : Nat) (ls : LoopState) (t : Nat) :
    (process_tour_step dl n ls t).st.status = ls.st.status := by
  rw [process_tour_step_st_eq, add_log_entry_status, step_upd_status_status]

theorem process_tour_step_st_next_chunk (dl : Nat → Bool) (n : Nat) (ls : LoopState) (t : Nat) :
    (process_tour_step dl n ls t).st.next_chunk = ls.st.next_chunk := by
  rw [process_tour_step_st_eq, add_log_entry_next_chunk, step_upd_status_next_chunk]

theorem process_tour_step_st_tours_found (dl : Nat → Bool) (n : Nat) (ls : LoopState) (t : Nat) :
    (process_tour_step dl n ls t).st.tours_found = ls.st.tours_found := by
  rw [process_tour_step_st_eq, add_log_entry_tours_found, step_upd_status_tours_found]

theorem process_tour_step_st_tours_completed (dl : Nat → Bool) (n : Nat) (ls : LoopState)
    (t : Nat) :
    (process_tour_step dl n ls t).st.tours_completed = ls.completed_count + 1 := rfl

theorem process_tour_step_st_progress (dl : Nat → Bool) (n : Nat) (ls : LoopState) (t : Nat) :
    (process_tour_step dl n ls t).st.progress =
      ((ls.completed_count + 1 : Nat) : Rat) / (n : Rat) := rfl

theorem process_tour_step_st_log (dl : Nat → Bool) (n : Nat) (ls : LoopState) (t : Nat)
    (h : ls.st.log.length ≤ 198) :
    (process_tour_step dl n ls t).st.log =
      ls.st.log ++ (if dl t then [LogEntry.completedTour (ls.completed_count + 1) n true]
        else [LogEntry.errorTour t,
              LogEntry.completedTour (ls.completed_count + 1) n false]) := by
  have hA : (add_log_entry (LogEntry.errorTour t) ls.st).log =
      ls.st.log ++ [LogEntry.errorTour t] :=
    add_log_entry_log_append _ _ (by omega)
  by_cases hdl : dl t
  · rw [process_tour_step_st_eq, add_log_entry_log_append]
    · rw [step_upd_status_log]
      simp [hdl]
    · rw [step_upd_status_log]
      simp only [hdl, ite_true]
      omega
  · rw [process_tour_step_st_eq, add_log_entry_log_append]
    · rw [step_upd_status_log]
      simp only [hdl, Bool.false_eq_true, ite_false]
      rw [hA, List.append_assoc]
      simp [hdl]
    · rw [step_upd_status_log]
      simp only [hdl, Bool.false_eq_true, ite_false]
      rw [hA]
      simp only [List.length_append, List.length_singleton]
      omega

/-! ### Cumulative effect of the whole as_completed loop. -/

theorem foldl_step_completed (dl : Nat → Bool) (n : Nat) :
    ∀ (order : List Nat) (ls : LoopState),
      (order.foldl (process_tour_step dl n) ls).completed_count
        = ls.completed_count + order.length
  | [], _ => by simp
  | t :: order, ls => by
    rw [List.foldl_cons, foldl_step_completed dl n order, process_tour_step_completed]
    simp only [List.length_cons]
    omega

theorem foldl_step_results (dl : Nat → Bool) (n : Nat) :
    ∀ (order : List Nat) (ls : LoopState),
      (order.foldl (process_tour_step dl n) ls).results
        = ls.results ++ order.filter (fun t => dl t)
  | [], _ => by simp
  | t :: order, ls => by
    rw [List.foldl_cons, foldl_step_results dl n order, process_tour_step_results,
      List.filter_cons]
    by_cases h : dl t <;> simp [h]

theorem foldl_step_status (dl : Nat → Bool) (n : Nat) :
    ∀ (order : List Nat) (ls : LoopState),
      (order.foldl (process_tour_step dl n) ls).st.status = ls.st.status
  | [], _ => rfl
  | t :: order, ls => by
    rw [List.foldl_cons, foldl_step_status dl n order, process_tour_step_st_status]

theorem foldl_step_next_chunk (dl : Nat → Bool) (n : Nat) :
    ∀ (order : List Nat) (ls : LoopState),
      (order.foldl (process_tour_step dl n) ls).st.next_chunk = ls.st.next_chunk
  | [], _ => rfl
  | t :: order, ls => by
    rw [List.foldl_cons, foldl_step_next_chunk dl n order, process_tour_step_st_next_chunk]

theorem foldl_step_tours_found (dl : Nat → Bool) (n : Nat) :
    ∀ (order : List Nat) (ls : LoopState),
      (order.foldl (process_tour_step dl n) ls).st.tours_found = ls.st.tours_found
  | [], _ => rfl
  | t :: order, ls => by
    rw [List.foldl_cons, foldl_step_tours_found dl n order, process_tour_step_st_tours_found]

theorem foldl_step_tours_completed (dl : Nat → Bool) (n : Nat) :
    ∀ (order : List Nat) (ls : LoopState),
      ls.st.tours_completed = ls.completed_count →
      (order.foldl (process_tour_step dl n) ls).st.tours_completed
        = ls.completed_count + order.length
  | [], ls => fun h => by simpa using h
  | t :: order, ls => fun _ => by
    rw [List.foldl_cons,
      foldl_step_tours_completed dl n order _
        (by rw [process_tour_step_st_tours_completed, process_tour_step_completed]),
      process_tour_step_completed]
    simp only [List.length_cons]
    omega

/-- Cumulative effect of the loop on the status log: error entries are
appended once per failed unit, and the log grows by at most two
entries per unit (no truncation occurs while the total stays within
the 200-entry cap). -/
theorem foldl_step_log (dl : Nat → Bool) (n : Nat) :
    ∀ (order : List Nat) (ls : LoopState),
      ls.st.log.length + 2 * order.length ≤ 200 →
      ((order.foldl (process_tour_step dl n) ls).st.log.countP isErrorEntry
          = ls.st.log.countP isErrorEntry + order.countP (fun t => ! dl t))
      ∧ (order.foldl (process_tour_step dl n) ls).st.log.length
          ≤ ls.st.log.length + 2 * order.length
  | [], ls => fun _ => by simp
  | t :: order, ls => by
    intro hlen
    simp only [List.length_cons] at hlen
    have hstep := process_tour_step_st_log dl n ls t (by omega)
    have hlen1 : (process_tour_step dl n ls t).st.log.length ≤ ls.st.log.length + 2 := by
      rw [hstep]
      by_cases h : dl t <;> simp [h]
    have ih := foldl_step_log dl n order (process_tour_step dl n ls t) (by omega)
    rw [List.foldl_cons]
    constructor
    · rw [ih.1, hstep, List.countP_append, List.countP_cons]
      by_cases h : dl t <;>
        simp [h, isErrorEntry, List.countP_cons, Nat.add_assoc, Nat.add_comm,
          Nat.add_left_comm]
    · calc (order.foldl (process_tour_step dl n) (process_tour_step dl n ls t)).st.log.length
          ≤ (process_tour_step dl n ls t).st.log.length + 2 * order.length := ih.2
        _ ≤ ls.st.log.length + 2 * (order.length + 1) := by omega

theorem foldl_step_log_count (dl : Nat → Bool) (n : Nat) (order : List Nat) (ls : LoopState)
    (h : ls.st.log.length + 2 * order.length ≤ 200) :
    (order.foldl (process_tour_step dl n) ls).st.log.countP isErrorEntry
      = ls.st.log.countP isErrorEntry + order.countP (fun t => ! dl t) :=
  (foldl_step_log dl n order ls h).1

/-- The chunk slice `list(tours.keys())[start_idx:end_idx]` is the
slice of `tours` at indices `[start, min(start+size, N))`, which is
also `tours[start:][:size]`. -/
theorem chunkIds_eq_drop_take (tours : List Nat) (cs cst : Nat) (hsize : 0 < cs) :
    chunkIds tours cs cst = (tours.drop cst).take cs := by
  unfold chunkIds
  rw [if_pos hsize]
  rcases le_or_lt (cst + cs) tours.length with h | h
  · congr 1
    omega
  · have h1 : (tours.drop cst).length ≤ min (cst + cs) tours.length - cst := by
      simp only [List.length_drop]
      omega
    have h2 : (tours.drop cst).length ≤ cs := by
      simp only [List.length_drop]
      omega
    rw [List.take_of_length_le h1, List.take_of_length_le h2]

theorem chunkIds_length (tours : List Nat) (cs cst : Nat) (hsize : 0 < cs) :
    (chunkIds tours cs cst).length = min (cst + cs) tours.length - cst := by
  unfold chunkIds
  rw [if_pos hsize]
  simp only [List.length_take, List.length_drop]
  omega

/-- Claim C1, amended: for a chunked all-tours job with
`ChunkSpec{start, size > 0}` over `N = tours.length` total tours, the
processed chunk is exactly the slice `[start, min(start+size, N))`,
the final `nextChunkOffset` is `min(start+size, N)` — so `start+size`
when another chunk remains and `N` otherwise — the final state is
`chunk_completed` when `start+size < N` and `completed` when
`start+size ≥ N`, and `itemsCompleted` counts the whole chunk.  (For
`size = 0`, the unbounded case, see the counterexample: all `N` tours
are processed and the run completes, but `nextChunkOffset` keeps its
reset value 0 instead of being set to `N`.) -/
theorem chunk_transition_spec (dl : Nat → Bool) (tours order : List Nat)
    (cs cst : Nat) (st0 : Status) (hsize : 0 < cs)
    (horder : order.Perm (chunkIds tours cs cst)) :
    chunkIds tours cs cst = (tours.drop cst).take cs
    ∧ (start_processing dl tours order cs cst st0).1.tours_found = tours.length
    ∧ (start_processing dl tours order cs cst st0).1.tours_completed
        = min (cst + cs) tours.length - cst
    ∧ (start_processing dl tours order cs cst st0).1.results = order.filter (fun t => dl t)
    ∧ (start_processing dl tours order cs cst st0).1.next_chunk
        = min (cst + cs) tours.length
    ∧ (start_processing dl tours order cs cst st0).1.progress = 1
    ∧ (cst + cs < tours.length →
        (start_processing dl tours order cs cst st0).1.status = "chunk_completed")
    ∧ (tours.length ≤ cst + cs →
        (start_processing dl tours order cs cst st0).1.status = "completed") := by
  have hlen : order.length = min (cst + cs) tours.length - cst := by
    rw [horder.length_eq, chunkIds_length tours cs cst hsize]
  refine ⟨chunkIds_eq_drop_take tours cs cst hsize, ?_, ?_, ?_, ?_, ?_, ?_, ?_⟩
  · simp only [start_processing, process_tours, add_log_entry_tours_found]
    rw [foldl_step_tours_found]
    simp
  · simp only [start_processing, process_tours, add_log_entry_tours_completed]
    rw [foldl_step_tours_completed _ _ _ _ (by simp)]
    show 0 + order.length = _
    omega
  · simp only [start_processing, process_tours, add_log_entry_results]
    rw [foldl_step_results]
    show ([] : List Nat) ++ _ = _
    simp
  · simp only [start_processing, process_tours, add_log_entry_next_chunk]
    rw [foldl_step_next_chunk]
    show (preloop_status tours cs cst _).next_chunk = _
    rw [preloop_status_next_chunk, if_pos hsize]
  · simp only [start_processing, process_tours, add_log_entry_progress]
  · intro hlt
    simp only [start_processing, process_tours, add_log_entry_status]
    rw [if_pos ⟨hsize, by omega⟩]
  · intro hge
    simp only [start_processing, process_tours, add_log_entry_status]
    rw [if_neg (by push_neg; intro _; omega)]

/-- Witness for `chunk_transition_spec`: three tours, chunk
`start = 0, size = 2`: the run ends `chunk_completed` with
`nextChunkOffset = 2` after completing 2 items. -/
theorem chunk_transition_spec_witness :
    (start_processing dlOk [1, 2, 3] [1, 2] 2 0 initialStatus).1.status = "chunk_completed"
    ∧ (start_processing dlOk [1, 2, 3] [1, 2] 2 0 initialStatus).1.next_chunk = min (0 + 2) 3
    ∧ (start_processing dlOk [1, 2, 3] [1, 2] 2 0 initialStatus).1.tours_completed
        = min (0 + 2) 3 - 0 := by
  have h := chunk_transition_spec dlOk [1, 2, 3] [1, 2] 2 0 initialStatus (by decide) (by decide)
  exact ⟨h.2.2.2.2.2.2.1 (by decide), h.2.2.2.2.1, h.2.2.1⟩

/-- Counterexample to claim C1 as stated, in its `size = 0` (unbounded)
case: an all-tours job with `chunkSize = 0` over `N = 2` tours
processes all `N` tours and ends `completed`, but `nextChunkOffset`
remains 0 — `process_tours` never writes `next_chunk` on the
unchunked path — instead of the claimed `N = 2`. -/
theorem chunk_unbounded_next_chunk_cex :
    unboundedRun.status = "completed"
    ∧ unboundedRun.results.length = 2
    ∧ unboundedRun.tours_found = 2
    ∧ unboundedRun.next_chunk = 0
    ∧ ¬ unboundedRun.next_chunk = 2 := by
  decide

theorem countP_add_countP_not {α : Type _} (p : α → Bool) (l : List α) :
    l.countP p + l.countP (fun a => ! p a) = l.length := by
  induction l with
  | nil => rfl
  | cons a l ih =>
    by_cases h : p a <;>
      simp [List.countP_cons, h] <;> omega

/-- In the tours.py all-tours orchestrator (`process_tours`, lines
797-811) a 10-tour job (no chunking) where exactly 2 of the per-tour
download units raise ends `completed` with exactly 8 results, exactly
2 per-unit error log entries, `tours_completed = 10` — there the loop
increments `completed_count` unconditionally, so failed units still
count as attempted — and `progress = 1`. -/
theorem failure_isolation_spec (dl : Nat → Bool) (tours order : List Nat) (st0 : Status)
    (horder : order.Perm tours) (hlen : tours.length = 10)
    (hfail : order.countP (fun t => ! dl t) = 2) :
    (start_processing dl tours order 0 0 st0).1.status = "completed"
    ∧ (start_processing dl tours order 0 0 st0).1.results.length = 8
    ∧ (start_processing dl tours order 0 0 st0).1.tours_completed = 10
    ∧ (start_processing dl tours order 0 0 st0).1.log.countP isErrorEntry = 2
    ∧ (start_processing dl tours order 0 0 st0).1.progress = 1 := by
  have hords : order.length = 10 := by rw [horder.length_eq, hlen]
  have hnot2 : ¬ ((0 : Nat) > 0 ∧ min (0 + 0) tours.length < tours.length) :=
    fun h => absurd h.1 (by omega)
  have hlog : (preloop_status tours 0 0
      (add_log_entry .outputDirSet (reset_status st0))).log.length = 6 := by
    rw [preloop_status_log_reset]
    simp
  refine ⟨?_, ?_, ?_, ?_, ?_⟩
  · simp only [start_processing, process_tours, if_neg hnot2, add_log_entry_status]
  · simp only [start_processing, process_tours, add_log_entry_results]
    rw [foldl_step_results]
    show (([] : List Nat) ++ order.filter (fun t => dl t)).length = 8
    rw [List.nil_append]
    have h1 := countP_add_countP_not (fun t => dl t) order
    rw [← List.countP_eq_length_filter]
    omega
  · simp only [start_processing, process_tours, add_log_entry_tours_completed]
    rw [foldl_step_tours_completed _ _ _ _ (by simp)]
    show 0 + order.length = 10
    omega
  · simp only [start_processing, process_tours]
    rw [add_log_entry_log_append]
    · simp only [List.countP_append]
      rw [foldl_step_log_count]
      · rw [preloop_status_log_reset]
        simp only [List.countP_append, List.countP_cons, List.countP_nil, isErrorEntry,
          if_neg (show ¬ (0 : Nat) > 0 by omega)]
        simp [hfail]
      · rw [hlog]
        omega
    · simp only []
      refine le_trans (foldl_step_log dl _ order _ ?_).2 ?_
      · rw [hlog]
        omega
      · rw [hlog]
        omega
  · simp only [start_processing, process_tours, add_log_entry_progress]

theorem add_log_entry_log_length_le (m : LogEntry) (st : Status) :
    (add_log_entry m st).log.length ≤ st.log.length + 1 := by
  simp only [add_log_entry]
  split
  · next h =>
    simp only [List.length_append, List.length_singleton] at h
    simp only [List.length_drop, List.length_append, List.length_singleton]
    omega
  · simp

theorem countP_add_log_nonerror (m : LogEntry) (st : Status)
    (hm : isErrorEntry m = false) (h : st.log.length ≤ 199) :
    (add_log_entry m st).log.countP isErrorEntry = st.log.countP isErrorEntry := by
  rw [add_log_entry_log_append m st h, List.countP_append]
  simp [hm]

/-! #### Cumulative effect of the per-tour loop of `process_collection`. -/

theorem coll_foldl_completed (dl : Nat → Bool) (total : Nat) :
    ∀ (order : List Nat) (cls : CollLoopState),
      (order.foldl (process_collection_tour_step dl total) cls).completed_tours
        = cls.completed_tours + order.countP (fun t => dl t)
  | [], _ => by simp
  | t :: order, cls => by
    rw [List.foldl_cons, coll_foldl_completed dl total order, List.countP_cons]
    by_cases h : dl t <;> simp [process_collection_tour_step, h] <;> omega

theorem coll_foldl_results (dl : Nat → Bool) (total : Nat) :
    ∀ (order : List Nat) (cls : CollLoopState),
      (order.foldl (process_collection_tour_step dl total) cls).collection_results
        = cls.collection_results ++ order.filter (fun t => dl t)
  | [], _ => by simp
  | t :: order, cls => by
    rw [List.foldl_cons, coll_foldl_results dl total order, List.filter_cons]
    by_cases h : dl t <;> simp [process_collection_tour_step, h]

theorem coll_foldl_log (dl : Nat → Bool) (total : Nat) :
    ∀ (order : List Nat) (cls : CollLoopState),
      cls.st.log.length + order.length ≤ 200 →
      ((order.foldl (process_collection_tour_step dl total) cls).st.log.countP isErrorEntry
          = cls.st.log.countP isErrorEntry + order.countP (fun t => ! dl t))
      ∧ (order.foldl (process_collection_tour_step dl total) cls).st.log.length
          ≤ cls.st.log.length + order.length
  | [], _ => fun _ => by simp
  | t :: order, cls => by
    intro hlen
    simp only [List.length_cons] at hlen
    by_cases h : dl t
    · have hstep : (process_collection_tour_step dl total cls t).st.log = cls.st.log := by
        simp [process_collection_tour_step, h]
      have ih := coll_foldl_log dl total order (process_collection_tour_step dl total cls t)
        (by rw [hstep]; omega)
      rw [List.foldl_cons]
      refine ⟨?_, ?_⟩
      · rw [ih.1, hstep, List.countP_cons]
        simp [h]
      · have h2 := ih.2
        rw [hstep] at h2
        simp only [List.length_cons]
        omega
    · have hstep : (process_collection_tour_step dl total cls t).st.log
          = cls.st.log ++ [LogEntry.errorTour t] := by
        simp only [process_collection_tour_step, h, Bool.false_eq_true, ite_false]
        exact add_log_entry_log_append _ _ (by omega)
      have ih := coll_foldl_log dl total order (process_collection_tour_step dl total cls t)
        (by rw [hstep]; simp only [List.length_append, List.length_singleton]; omega)
      rw [List.foldl_cons]
      refine ⟨?_, ?_⟩
      · rw [ih.1, hstep, List.countP_append, List.countP_cons]
        simp [h, isErrorEntry, Nat.add_assoc, Nat.add_comm, Nat.add_left_comm]
      · have h2 := ih.2
        rw [hstep] at h2
        simp only [List.length_append, List.length_singleton] at h2
        simp only [List.length_cons]
        omega

/-- Counterexample to claim C7 as stated: in the collection-job
orchestrator the claim cites (`process_collection`,
src/collections.py lines 826-836), a concrete 10-tour collection job
in which exactly the units for tours 3 and 7 raise ends `completed`
with 8 results and 2 error log entries — but with
`tours_completed = 8`, not the claimed 10: that loop advances the
counter only for successful units. -/
theorem collection_job_attempted_count_cex :
    (download_collection_tours dlFail37 demo10 demo10 initialStatus).status = "completed"
    ∧ (download_collection_tours dlFail37 demo10 demo10 initialStatus).results.length = 8
    ∧ (download_collection_tours dlFail37 demo10 demo10
        initialStatus).log.countP isErrorEntry = 2
    ∧ (download_collection_tours dlFail37 demo10 demo10 initialStatus).tours_completed = 8
    ∧ ¬ (download_collection_tours dlFail37 demo10 demo10
        initialStatus).tours_completed = 10 := by
  decide

/-- Claim C7, amended: in a 10-tour job where exactly 2 of the 10
per-tour download calls raise, each failing unit is caught and logged
and contributes no result while sibling units continue, and the job
ends `completed` with exactly 8 results, 2 error log entries and
`progress = 1` — in both orchestrators.  But the two orchestrators
count differently: the collection-job loop of
`process_collection` (collections.py) increments its counter only for
successful units, ending with `itemsCompleted (tours_completed) = 8`,
while the all-tours loop of `process_tours` (tours.py) increments
unconditionally, so only there do failed units still count as
attempted and `tours_completed = 10`. -/
theorem failure_isolation_amended (dl : Nat → Bool) (tours order : List Nat)
    (st0 st0' : Status) (horder : order.Perm tours) (hlen : tours.length = 10)
    (hfail : order.countP (fun t => ! dl t) = 2) :
    ((download_collection_tours dl tours order st0).status = "completed"
      ∧ (download_collection_tours dl tours order st0).results.length = 8
      ∧ (download_collection_tours dl tours order st0).log.countP isErrorEntry = 2
      ∧ (download_collection_tours dl tours order st0).tours_completed = 8
      ∧ (download_collection_tours dl tours order st0).progress = 1)
    ∧ ((start_processing dl tours order 0 0 st0').1.status = "completed"
      ∧ (start_processing dl tours order 0 0 st0').1.results.length = 8
      ∧ (start_processing dl tours order 0 0 st0').1.tours_completed = 10
      ∧ (start_processing dl tours order 0 0 st0').1.log.countP isErrorEntry = 2
      ∧ (start_processing dl tours order 0 0 st0').1.progress = 1) := by
  refine ⟨?_, failure_isolation_spec dl tours order st0' horder hlen hfail⟩
  have hords : order.length = 10 := by rw [horder.length_eq, hlen]
  have hsucc : order.countP (fun t => dl t) = 8 := by
    have h1 := countP_add_countP_not (fun t => dl t) order
    omega
  have hplog : (coll_pre_status tours (reset_status st0)).log.length = 3 := rfl
  have hplogc : (coll_pre_status tours (reset_status st0)).log.countP isErrorEntry = 0 := rfl
  have hpre3 : ((⟨0, [], coll_pre_status tours (reset_status st0)⟩ :
      CollLoopState)).st.log.length = 3 := hplog
  have hc := coll_foldl_log dl tours.length order
    ⟨0, [], coll_pre_status tours (reset_status st0)⟩
    (by show (coll_pre_status tours (reset_status st0)).log.length + order.length ≤ 200
        rw [hplog]
        omega)
  refine ⟨?_, ?_, ?_, ?_, ?_⟩
  · simp only [download_collection_tours, download_collection_tours_thread,
      add_log_entry_status]
  · simp only [download_collection_tours, download_collection_tours_thread,
      add_log_entry_results]
    rw [coll_foldl_results]
    show (([] : List Nat) ++ order.filter (fun t => dl t)).length = 8
    rw [List.nil_append, ← List.countP_eq_length_filter]
    omega
  · simp only [download_collection_tours, download_collection_tours_thread]
    set F := order.foldl (process_collection_tour_step dl tours.length)
      (⟨0, [], coll_pre_status tours (reset_status st0)⟩ : CollLoopState) with hF
    have hFlen : F.st.log.length ≤ 199 := by
      have h2 := hc.2
      omega
    have hq1 : (add_log_entry LogEntry.createdCsv F.st).log.countP isErrorEntry
        = F.st.log.countP isErrorEntry := countP_add_log_nonerror _ _ rfl hFlen
    have hq1L : (add_log_entry LogEntry.createdCsv F.st).log.length ≤ 199 := by
      have h1 := add_log_entry_log_length_le LogEntry.createdCsv F.st
      have h2 := hc.2
      omega
    have hq2 : (add_log_entry (LogEntry.completedCollection F.collection_results.length)
          (add_log_entry LogEntry.createdCsv F.st)).log.countP isErrorEntry
        = (add_log_entry LogEntry.createdCsv F.st).log.countP isErrorEntry :=
      countP_add_log_nonerror _ _ rfl hq1L
    have hq2L : (add_log_entry (LogEntry.completedCollection F.collection_results.length)
          (add_log_entry LogEntry.createdCsv F.st)).log.length ≤ 199 := by
      have h1 := add_log_entry_log_length_le
        (LogEntry.completedCollection F.collection_results.length)
        (add_log_entry LogEntry.createdCsv F.st)
      have h0 := add_log_entry_log_length_le LogEntry.createdCsv F.st
      have h2 := hc.2
      omega
    rw [countP_add_log_nonerror]
    · show (add_log_entry (LogEntry.completedCollection F.collection_results.length)
          (add_log_entry LogEntry.createdCsv F.st)).log.countP isErrorEntry = 2
      rw [hq2, hq1, hc.1]
      show (coll_pre_status tours (reset_status st0)).log.countP isErrorEntry
          + order.countP (fun t => ! dl t) = 2
      rw [hplogc]
      omega
    · rfl
    · exact hq2L
  · simp only [download_collection_tours, download_collection_tours_thread,
      add_log_entry_tours_completed]
    rw [coll_foldl_completed]
    show 0 + order.countP (fun t => dl t) = 8
    omega
  · simp only [download_collection_tours, download_collection_tours_thread,
      add_log_entry_progress]

/-- Witness for `failure_isolation_amended`: ten concrete tours of
which exactly tours 3 and 7 fail, run through both orchestrators. -/
theorem failure_isolation_amended_witness :
    (download_collection_tours dlFail37 demo10 demo10 initialStatus).results.length = 8
    ∧ (download_collection_tours dlFail37 demo10 demo10 initialStatus).tours_completed = 8
    ∧ (start_processing dlFail37 demo10 demo10 0 0 initialStatus).1.results.length = 8
    ∧ (start_processing dlFail37 demo10 demo10 0 0 initialStatus).1.tours_completed = 10 := by
  have h := failure_isolation_amended dlFail37 demo10 demo10 initialStatus initialStatus
    (List.Perm.refl _) (by decide) (by decide)
  exact ⟨h.1.2.1, h.1.2.2.2.1, h.2.2.1, h.2.2.2.1⟩

/-! ### Monotonicity of the observable trace. -/

theorem mem_of_getLast?_eq {α : Type _} {l : List α} {a : α} (h : l.getLast? = some a) :
    a ∈ l := by
  have ha : a ∈ l.getLast? := by rw [h]; rfl
  obtain ⟨hne, rfl⟩ := List.mem_getLast?_eq_getLast ha
  exact List.getLast_mem hne

/-- Chains extend by one element related to the recorded last one. -/
theorem chain_snoc {α : Type _} {R : α → α → Prop} {l : List α} {a b : α}
    (hch : List.Chain' R l) (hlast : l.getLast? = some a) (hab : R a b) :
    List.Chain' R (l ++ [b]) ∧ (l ++ [b]).getLast? = some b := by
  constructor
  · rw [List.chain'_append]
    refine ⟨hch, List.chain'_singleton b, fun x hx y hy => ?_⟩
    rw [hlast] at hx
    cases hx
    cases hy
    exact hab
  · exact List.getLast?_concat l

/-- One loop iteration preserves the trace invariants: the trace stays
a monotone chain ending in the current status, every snapshot keeps
`progress ∈ [0, 1]`, and the current status carries
`tours_completed = completed_count` and
`progress = completed_count / n`. -/
theorem step_chain (dl : Nat → Bool) (n : Nat) (ls : LoopState) (t : Nat)
    (h1 : ls.completed_count + 1 ≤ n)
    (h2 : ls.st.tours_completed = ls.completed_count)
    (h3 : ls.st.progress = (ls.completed_count : Rat) / (n : Rat))
    (h4 : ls.trace.getLast? = some ls.st)
    (h5 : List.Chain' statusLe ls.trace)
    (h6 : ∀ s ∈ ls.trace, 0 ≤ s.progress ∧ s.progress ≤ 1) :
    (process_tour_step dl n ls t).trace.getLast? = some (process_tour_step dl n ls t).st
    ∧ List.Chain' statusLe (process_tour_step dl n ls t).trace
    ∧ (∀ s ∈ (process_tour_step dl n ls t).trace, 0 ≤ s.progress ∧ s.progress ≤ 1)
    ∧ (∃ tr', (process_tour_step dl n ls t).trace = ls.trace ++ tr') := by
  have hn : (0 : Rat) < (n : Rat) := by
    have h : 0 < n := by omega
    exact_mod_cast h
  have hmono : (ls.completed_count : Rat) / (n : Rat)
      ≤ ((ls.completed_count + 1 : Nat) : Rat) / (n : Rat) :=
    (div_le_div_right hn).mpr (by exact_mod_cast Nat.le_succ ls.completed_count)
  have hb0 : (0 : Rat) ≤ ((ls.completed_count + 1 : Nat) : Rat) / (n : Rat) :=
    div_nonneg (by positivity) (le_of_lt hn)
  have hb1 : ((ls.completed_count + 1 : Nat) : Rat) / (n : Rat) ≤ 1 :=
    (div_le_one hn).mpr (by exact_mod_cast h1)
  have hBle : statusLe ls.st (step_upd_status dl n ls t) := by
    constructor
    · rw [h2, step_upd_status_tours_completed]
      exact Nat.le_succ _
    · rw [h3, step_upd_status_progress]
      exact hmono
  have hCle : statusLe (step_upd_status dl n ls t) (process_tour_step dl n ls t).st := by
    rw [process_tour_step_st_eq]
    exact ⟨le_of_eq (by simp), le_of_eq (by simp)⟩
  have hCb : 0 ≤ (process_tour_step dl n ls t).st.progress
      ∧ (process_tour_step dl n ls t).st.progress ≤ 1 := by
    rw [process_tour_step_st_eq, add_log_entry_progress, step_upd_status_progress]
    exact ⟨hb0, hb1⟩
  have hBb : 0 ≤ (step_upd_status dl n ls t).progress
      ∧ (step_upd_status dl n ls t).progress ≤ 1 := by
    rw [step_upd_status_progress]
    exact ⟨hb0, hb1⟩
  by_cases hdl : dl t
  · have e1 := chain_snoc h5 h4 hBle
    have e2 := chain_snoc e1.1 e1.2 hCle
    rw [process_tour_step_trace]
    simp only [hdl, ite_true]
    have hassoc : ls.trace ++ [step_upd_status dl n ls t, (process_tour_step dl n ls t).st]
        = (ls.trace ++ [step_upd_status dl n ls t]) ++ [(process_tour_step dl n ls t).st] := by
      rw [List.append_assoc]
      rfl
    rw [hassoc]
    refine ⟨e2.2, e2.1, fun s hs => ?_,
      ⟨[step_upd_status dl n ls t, (process_tour_step dl n ls t).st], by
        rw [List.append_assoc]; rfl⟩⟩
    rcases List.mem_append.mp hs with hs | hs
    · rcases List.mem_append.mp hs with hs | hs
      · exact h6 s hs
      · rw [List.mem_singleton] at hs
        subst hs
        exact hBb
    · rw [List.mem_singleton] at hs
      subst hs
      exact hCb
  · have hAle : statusLe ls.st (add_log_entry (.errorTour t) ls.st) :=
      ⟨le_of_eq (by simp), le_of_eq (by simp)⟩
    have hBle' : statusLe (add_log_entry (.errorTour t) ls.st) (step_upd_status dl n ls t) := by
      constructor
      · rw [add_log_entry_tours_completed, h2, step_upd_status_tours_completed]
        exact Nat.le_succ _
      · rw [add_log_entry_progress, h3, step_upd_status_progress]
        exact hmono
    have eA := chain_snoc h5 h4 hAle
    have e1 := chain_snoc eA.1 eA.2 hBle'
    have e2 := chain_snoc e1.1 e1.2 hCle
    rw [process_tour_step_trace]
    simp only [hdl, Bool.false_eq_true, ite_false]
    have hassoc : (ls.trace ++ [add_log_entry (.errorTour t) ls.st])
          ++ [step_upd_status dl n ls t, (process_tour_step dl n ls t).st]
        = ((ls.trace ++ [add_log_entry (.errorTour t) ls.st])
            ++ [step_upd_status dl n ls t]) ++ [(process_tour_step dl n ls t).st] := by
      rw [List.append_assoc (ls.trace ++ [add_log_entry (.errorTour t) ls.st])]
      rfl
    rw [hassoc]
    have hmemls : ls.st ∈ ls.trace := mem_of_getLast?_eq h4
    refine ⟨e2.2, e2.1, fun s hs => ?_,
      ⟨[add_log_entry (.errorTour t) ls.st, step_upd_status dl n ls t,
          (process_tour_step dl n ls t).st], by simp⟩⟩
    rcases List.mem_append.mp hs with hs | hs
    · rcases List.mem_append.mp hs with hs | hs
      · rcases List.mem_append.mp hs with hs | hs
        · exact h6 s hs
        · rw [List.mem_singleton] at hs
          subst hs
          refine ⟨?_, ?_⟩ <;> rw [add_log_entry_progress]
          · exact (h6 ls.st hmemls).1
          · exact (h6 ls.st hmemls).2
      · rw [List.mem_singleton] at hs
        subst hs
        exact hBb
    · rw [List.mem_singleton] at hs
      subst hs
      exact hCb

/-- The loop maintains the trace invariants across all iterations. -/
theorem foldl_step_chain (dl : Nat → Bool) (n : Nat) :
    ∀ (order : List Nat) (ls : LoopState),
      ls.completed_count + order.length ≤ n →
      ls.st.tours_completed = ls.completed_count →
      ls.st.progress = (ls.completed_count : Rat) / (n : Rat) →
      ls.trace.getLast? = some ls.st →
      List.Chain' statusLe ls.trace →
      (∀ s ∈ ls.trace, 0 ≤ s.progress ∧ s.progress ≤ 1) →
      ((order.foldl (process_tour_step dl n) ls).trace.getLast?
          = some (order.foldl (process_tour_step dl n) ls).st
        ∧ List.Chain' statusLe (order.foldl (process_tour_step dl n) ls).trace
        ∧ (∀ s ∈ (order.foldl (process_tour_step dl n) ls).trace,
            0 ≤ s.progress ∧ s.progress ≤ 1)
        ∧ ∃ tr', (order.foldl (process_tour_step dl n) ls).trace = ls.trace ++ tr')
  | [], ls => fun _ _ _ h4 h5 h6 => ⟨h4, h5, h6, [], by simp⟩
  | t :: order, ls => fun h1 h2 h3 h4 h5 h6 => by
    simp only [List.length_cons] at h1
    have hs := step_chain dl n ls t (by omega) h2 h3 h4 h5 h6
    have ih := foldl_step_chain dl n order (process_tour_step dl n ls t)
      (by rw [process_tour_step_completed]; omega)
      (by rw [process_tour_step_st_tours_completed, process_tour_step_completed])
      (by rw [process_tour_step_st_progress, process_tour_step_completed])
      hs.1 hs.2.1 hs.2.2.1
    rw [List.foldl_cons]
    obtain ⟨g1, g2, g3, tr2, g4⟩ := ih
    obtain ⟨tr1, e1⟩ := hs.2.2.2
    exact ⟨g1, g2, g3, tr1 ++ tr2, by rw [g4, e1, List.append_assoc]⟩

theorem preloop_trace_getLast (tours : List Nat) (cs cst : Nat) (st0 : Status) :
    (preloop_trace tours cs cst st0).getLast? = some (preloop_status tours cs cst st0) := by
  unfold preloop_trace preloop_status s7pre
  by_cases h : cs > 0 <;> simp [h]

theorem preloop_trace_chain (tours : List Nat) (cs cst : Nat) (st0 : Status) :
    List.Chain' statusLe (preloop_trace tours cs cst st0) := by
  unfold preloop_trace
  by_cases h : cs > 0 <;>
    simp [h, List.chain'_cons, statusLe, preloop_status, s7pre]

theorem preloop_trace_head (tours : List Nat) (cs cst : Nat) (st0 : Status) :
    (preloop_trace tours cs cst st0).head? = some { st0 with status := "running" } := by
  unfold preloop_trace
  by_cases h : cs > 0 <;> simp [h]

theorem preloop_trace_bounds (tours : List Nat) (cs cst : Nat) (st0 : Status)
    (h0 : st0.progress = 0) :
    ∀ s ∈ preloop_trace tours cs cst st0, 0 ≤ s.progress ∧ s.progress ≤ 1 := by
  unfold preloop_trace
  by_cases h : cs > 0 <;>
    · simp only [h, ite_true, ite_false, List.mem_cons, List.mem_singleton,
        List.not_mem_nil, or_false]
      intro s hs
      rcases hs with rfl | rfl | rfl | rfl | rfl | rfl | rfl | rfl | rfl <;>
        (refine ⟨?_, ?_⟩ <;> simp [preloop_status, s7pre, h, h0] <;> norm_num)

/-- Packaging lemma: a run trace — reset, start-route log entry, the
loop trace `l`, the final locked update `sF`, and the completion log
entry — is pairwise monotone with bounded progress, provided the loop
trace is a monotone bounded chain starting at the `running` snapshot
and ending at `cur`, and `sF` keeps `cur.tours_completed` while
setting `progress = 1`. -/
theorem run_trace_spec {l : List Status} {cur sF : Status} {st0 : Status} (m : LogEntry)
    (hlast : l.getLast? = some cur)
    (hch : List.Chain' statusLe l)
    (hbd : ∀ s ∈ l, 0 ≤ s.progress ∧ s.progress ≤ 1)
    (hhead : l.head? = some
      { add_log_entry LogEntry.outputDirSet (reset_status st0) with status := "running" })
    (htc : sF.tours_completed = cur.tours_completed)
    (hpr : sF.progress = 1) :
    List.Pairwise statusLe
      ([reset_status st0, add_log_entry LogEntry.outputDirSet (reset_status st0)]
        ++ (l ++ [sF, add_log_entry m sF]))
    ∧ ∀ s ∈ [reset_status st0, add_log_entry LogEntry.outputDirSet (reset_status st0)]
        ++ (l ++ [sF, add_log_entry m sF]), 0 ≤ s.progress ∧ s.progress ≤ 1 := by
  have hFle : statusLe cur sF :=
    ⟨le_of_eq htc.symm, by rw [hpr]; exact (hbd cur (mem_of_getLast?_eq hlast)).2⟩
  have hGle : statusLe sF (add_log_entry m sF) := ⟨le_of_eq (by simp), le_of_eq (by simp)⟩
  have e1 := chain_snoc hch hlast hFle
  have e2 := chain_snoc e1.1 e1.2 hGle
  have hassoc : l ++ [sF, add_log_entry m sF] = (l ++ [sF]) ++ [add_log_entry m sF] := by
    rw [List.append_assoc]
    rfl
  have hchainL : List.Chain' statusLe (l ++ [sF, add_log_entry m sF]) := by
    rw [hassoc]
    exact e2.1
  have hboundsL : ∀ s ∈ l ++ [sF, add_log_entry m sF], 0 ≤ s.progress ∧ s.progress ≤ 1 := by
    intro s hs
    rcases List.mem_append.mp hs with hs | hs
    · exact hbd s hs
    · simp only [List.mem_cons, List.mem_singleton, List.not_mem_nil, or_false] at hs
      rcases hs with rfl | rfl
      · constructor <;> rw [hpr] <;> norm_num
      · constructor <;> rw [add_log_entry_progress, hpr] <;> norm_num
  constructor
  · rw [← List.chain'_iff_pairwise, List.chain'_append]
    refine ⟨?_, hchainL, ?_⟩
    · refine List.chain'_cons.mpr ⟨⟨le_of_eq (by simp), le_of_eq (by simp)⟩,
        List.chain'_singleton _⟩
    · intro x hx y hy
      have hx' : add_log_entry LogEntry.outputDirSet (reset_status st0) = x := by
        simpa using hx
      have hhd : (l ++ [sF, add_log_entry m sF]).head? = l.head? :=
        List.head?_append_of_ne_nil l (by
          intro hnil
          rw [hnil] at hlast
          exact Option.noConfusion hlast)
      rw [hhd, hhead] at hy
      cases hy
      rw [← hx']
      exact ⟨le_of_eq (by simp), le_of_eq (by simp)⟩
  · intro s hs
    rcases List.mem_append.mp hs with hs | hs
    · simp only [List.mem_cons, List.mem_singleton, List.not_mem_nil, or_false] at hs
      rcases hs with rfl | rfl
      · constructor <;> simp
      · constructor <;> simp
    · exact hboundsL s hs

/-- Claim C8: within a single job run (one start request and the
background job it spawns), the observable status snapshots — one per
lock-guarded mutation, in order — never show a decrease of
`tours_completed` or of `progress` between any two polls, and
`progress` stays within `[0, 1]` throughout. -/
theorem progress_monotonicity_spec (dl : Nat → Bool) (tours order : List Nat)
    (cs cst : Nat) (st0 : Status)
    (horder : order.Perm (chunkIds tours cs cst)) :
    List.Pairwise statusLe (start_processing dl tours order cs cst st0).2
    ∧ ∀ s ∈ (start_processing dl tours order cs cst st0).2,
        0 ≤ s.progress ∧ s.progress ≤ 1 := by
  have hlen : order.length = (chunkIds tours cs cst).length := horder.length_eq
  have hchain := foldl_step_chain dl ((chunkIds tours cs cst).length) order
    ⟨0, [],
      preloop_status tours cs cst (add_log_entry .outputDirSet (reset_status st0)),
      preloop_trace tours cs cst (add_log_entry .outputDirSet (reset_status st0))⟩
    (by simpa using hlen.le)
    (by simp)
    (by simp)
    (preloop_trace_getLast tours cs cst _)
    (preloop_trace_chain tours cs cst _)
    (preloop_trace_bounds tours cs cst _ (by simp))
  obtain ⟨g1, g2, g3, tr', g4⟩ := hchain
  simp only [start_processing, process_tours]
  have hne : preloop_trace tours cs cst
      (add_log_entry LogEntry.outputDirSet (reset_status st0)) ≠ [] := by
    intro h
    have hh := preloop_trace_head tours cs cst
      (add_log_entry LogEntry.outputDirSet (reset_status st0))
    rw [h] at hh
    exact Option.noConfusion hh
  refine run_trace_spec _ g1 g2 g3 ?_ rfl rfl
  rw [g4]
  show (preloop_trace tours cs cst _ ++ tr').head? = _
  rw [List.head?_append_of_ne_nil _ hne, preloop_trace_head]

/-- Witness for `progress_monotonicity_spec`: the concrete chunked run
over three tours. -/
theorem progress_monotonicity_spec_witness :
    List.Pairwise statusLe (start_processing dlOk [1, 2, 3] [1, 2] 2 0 initialStatus).2
    ∧ ∀ s ∈ (start_processing dlOk [1, 2, 3] [1, 2] 2 0 initialStatus).2,
        0 ≤ s.progress ∧ s.progress ≤ 1 :=
  progress_monotonicity_spec dlOk [1, 2, 3] [1, 2] 2 0 initialStatus (by decide)

end Komoot
